import Mathlib

/-!
# A verification development for the Phong ray tracer `q2.cpp`

The C++ program is embedded shallowly.

* `float` values are modelled by the elements of a linear ordered field `K`
  (exact arithmetic, decimal literals denote their decimal value); the theorems
  that need square roots or powers are stated over `ℝ` with `Real.sqrt` and
  `Real.rpow`.  The two library functions `sqrt` and `pow` are parameters of
  the definitions, so that every definition stays executable (for instance over
  `ℚ`).
* `glm::vec3` is the structure `Vec3`, with the glm operations the program uses.
* A `Material*` is modelled by `Option (Material K)`: `none` is the null
  pointer, `some m` a pointer to the material `m`.  Dereferencing a null pointer
  makes `shade` (and then `render`) return `none`.
* `std::vector<Surface*>` is a list of `Surface`, the two subclasses being the
  two constructors.
* The local `Intersection closest;` of `render` is not initialised by the
  program; its indeterminate initial contents are the parameter `junk`.
-/

namespace RayTracer

/-- The type `glm::vec3`. -/
structure Vec3 (K : Type) where
  x : K
  y : K
  z : K
  deriving DecidableEq, Repr

namespace Vec3

variable {K : Type} [LinearOrderedField K]

/-- The constructor `vec3(s)`: all three components equal. -/
def splat (s : K) : Vec3 K := ⟨s, s, s⟩

/-- Componentwise `a + b`. -/
def add (a b : Vec3 K) : Vec3 K := ⟨a.x + b.x, a.y + b.y, a.z + b.z⟩

/-- Componentwise `a - b`. -/
def sub (a b : Vec3 K) : Vec3 K := ⟨a.x - b.x, a.y - b.y, a.z - b.z⟩

/-- Unary minus. -/
def neg (a : Vec3 K) : Vec3 K := ⟨-a.x, -a.y, -a.z⟩

/-- Componentwise product `a * b` of two vectors. -/
def mul (a b : Vec3 K) : Vec3 K := ⟨a.x * b.x, a.y * b.y, a.z * b.z⟩

/-- Scalar times vector, `t * v`. -/
def smul (t : K) (v : Vec3 K) : Vec3 K := ⟨t * v.x, t * v.y, t * v.z⟩

/-- Vector times scalar, `v * s`. -/
def muls (v : Vec3 K) (s : K) : Vec3 K := ⟨v.x * s, v.y * s, v.z * s⟩

/-- The function `glm::dot`. -/
def dot (a b : Vec3 K) : K := a.x * b.x + a.y * b.y + a.z * b.z

/-- The function `glm::length`: `sqrt(dot(v, v))`. -/
def length (sqrt : K → K) (v : Vec3 K) : K := sqrt (dot v v)

/-- The function `glm::normalize`: `v * inversesqrt(dot(v, v))`. -/
def normalize (sqrt : K → K) (v : Vec3 K) : Vec3 K := muls v (1 / sqrt (dot v v))

/-- The function `glm::clamp(v, lo, hi)` with scalar bounds: `min(max(x, lo), hi)` per component. -/
def clamp (v : Vec3 K) (lo hi : K) : Vec3 K :=
  ⟨min (max v.x lo) hi, min (max v.y lo) hi, min (max v.z lo) hi⟩

/-- The function `glm::pow(v, e)`, componentwise. -/
def pow (powf : K → K → K) (v e : Vec3 K) : Vec3 K := ⟨powf v.x e.x, powf v.y e.y, powf v.z e.z⟩

end Vec3

/-- The struct `Ray`. -/
structure Ray (K : Type) where
  origin : Vec3 K
  direction : Vec3 K
  deriving DecidableEq, Repr

/-- The class `Material`. -/
structure Material (K : Type) where
  ka : Vec3 K
  kd : Vec3 K
  ks : Vec3 K
  power : K
  deriving DecidableEq, Repr

/-- The struct `Intersection`; `material` is a pointer. -/
structure Intersection (K : Type) where
  hit : Bool
  distance : K
  point : Vec3 K
  normal : Vec3 K
  material : Option (Material K)
  deriving DecidableEq, Repr

/-- The class `Plane` (with the `material` member inherited from `Surface`). -/
structure Plane (K : Type) where
  normal : Vec3 K
  d : K
  material : Option (Material K)
  deriving DecidableEq, Repr

/-- The class `Sphere` (with the `material` member inherited from `Surface`). -/
structure Sphere (K : Type) where
  center : Vec3 K
  radius : K
  material : Option (Material K)
  deriving DecidableEq, Repr

/-- The abstract class `Surface` with its two subclasses. -/
inductive Surface (K : Type) where
  | plane (p : Plane K)
  | sphere (s : Sphere K)
  deriving DecidableEq, Repr

/-- The class `Camera`; the bounds `l r b t d` have the default member initialisers. -/
structure Camera (K : Type) where
  eye : Vec3 K
  u : Vec3 K
  v : Vec3 K
  w : Vec3 K
  l : K
  r : K
  b : K
  t : K
  d : K
  deriving DecidableEq, Repr

section Defs

variable {K : Type} [LinearOrderedField K]

/-- The constant `FLT_MAX`, `(2 - 2^-23) * 2^127`. -/
def FLT_MAX : K := 340282346638528859811704183484516925440

/-- The aggregate `{ false }`: the remaining members are value-initialised. -/
def Intersection.miss : Intersection K := ⟨false, 0, ⟨0, 0, 0⟩, ⟨0, 0, 0⟩, none⟩

/-- The constructor `Plane(n, d_, m)`, which normalises `n`. -/
def Plane.new (sqrt : K → K) (n : Vec3 K) (d_ : K) (m : Option (Material K)) : Plane K :=
  ⟨Vec3.normalize sqrt n, d_, m⟩

/-- The method `Plane::intersect`. -/
def Plane.intersect (p : Plane K) (ray : Ray K) : Intersection K :=
  let denom := Vec3.dot p.normal ray.direction
  if |denom| > 1 / 1000000 then
    let t := -(Vec3.dot p.normal ray.origin + p.d) / denom
    if t ≥ 1 / 1000 then
      let point := Vec3.add ray.origin (Vec3.smul t ray.direction)
      ⟨true, t, point, p.normal, p.material⟩
    else Intersection.miss
  else Intersection.miss

/-- The method `Sphere::intersect`. -/
def Sphere.intersect (sqrt : K → K) (s : Sphere K) (ray : Ray K) : Intersection K :=
  let oc := Vec3.sub ray.origin s.center
  let a := Vec3.dot ray.direction ray.direction
  let b := 2 * Vec3.dot oc ray.direction
  let c := Vec3.dot oc oc - s.radius * s.radius
  let discriminant := b * b - 4 * a * c
  if discriminant < 0 then Intersection.miss
  else
    let t := (-b - sqrt discriminant) / (2 * a)
    if t > 1 / 1000 then
      let point := Vec3.add ray.origin (Vec3.smul t ray.direction)
      let normal := Vec3.normalize sqrt (Vec3.sub point s.center)
      ⟨true, t, point, normal, s.material⟩
    else Intersection.miss

/-- The virtual call `s->intersect(ray)`. -/
def Surface.intersect (sqrt : K → K) : Surface K → Ray K → Intersection K
  | Surface.plane p, ray => p.intersect ray
  | Surface.sphere s, ray => s.intersect sqrt ray

/-- The member `material` that both subclasses inherit from `Surface`. -/
def Surface.material : Surface K → Option (Material K)
  | Surface.plane p => p.material
  | Surface.sphere s => s.material

/-- The constructor `Camera(e, u_, v_, w_)`. -/
def Camera.new (e u_ v_ w_ : Vec3 K) : Camera K :=
  ⟨e, u_, v_, w_, -(1 / 10), 1 / 10, -(1 / 10), 1 / 10, 1 / 10⟩

/-- The method `Camera::getRay`, with the globals `Width` and `Height` as parameters. -/
def Camera.getRay (sqrt : K → K) (cam : Camera K) (Width Height : Int) (i j : Int) : Ray K :=
  let su := cam.l + (cam.r - cam.l) * ((i : K) + 1 / 2) / (Width : K)
  let sv := cam.b + (cam.t - cam.b) * ((j : K) + 1 / 2) / (Height : K)
  ⟨cam.eye, Vec3.normalize sqrt ⟨su, sv, -cam.d⟩⟩

/-- The global `lightPos`. -/
def lightPos : Vec3 K := ⟨-4, 4, -3⟩

/-- The global `lightColor` (white). -/
def lightColor : Vec3 K := Vec3.splat 1

/-- The loop of `isInShadow`, returning at the first occluder. -/
def isInShadowLoop (sqrt : K → K) (shadowRay : Ray K) (lightDist : K) : List (Surface K) → Bool
  | [] => false
  | s :: rest =>
    let isect := s.intersect sqrt shadowRay
    if isect.hit && decide (isect.distance > 1 / 1000) && decide (isect.distance < lightDist) then
      true
    else isInShadowLoop sqrt shadowRay lightDist rest

/-- The shadow ray built by `isInShadow`. -/
def shadowRay (sqrt : K → K) (point : Vec3 K) : Ray K :=
  let dirToLight := Vec3.normalize sqrt (Vec3.sub lightPos point)
  ⟨Vec3.add point (Vec3.muls dirToLight (1 / 100)), dirToLight⟩

/-- The function `isInShadow`. -/
def isInShadow (sqrt : K → K) (point : Vec3 K) (scene : List (Surface K)) : Bool :=
  let lightDist := Vec3.length sqrt (Vec3.sub lightPos point)
  isInShadowLoop sqrt (shadowRay sqrt point) lightDist scene

/-- The function `shade`; `none` when `hit.material` is the null pointer. -/
def shade (sqrt : K → K) (powf : K → K → K) (hit : Intersection K) (ray : Ray K)
    (scene : List (Surface K)) : Option (Vec3 K) :=
  match hit.material with
  | none => none
  | some mat =>
    let ambient := Vec3.mul mat.ka lightColor
    if isInShadow sqrt hit.point scene then some ambient
    else
      let l := Vec3.normalize sqrt (Vec3.sub lightPos hit.point)
      let v := Vec3.normalize sqrt (Vec3.neg ray.direction)
      let n := Vec3.normalize sqrt hit.normal
      let h := Vec3.normalize sqrt (Vec3.add l v)
      let diff := max (Vec3.dot n l) 0
      let spec := powf (max (Vec3.dot n h) 0) mat.power
      let diffuse := Vec3.mul (Vec3.muls mat.kd diff) lightColor
      let specular := Vec3.mul (Vec3.muls mat.ks spec) lightColor
      some (Vec3.add (Vec3.add ambient diffuse) specular)

/-- One step of the closest-hit scan of `render`: the body of `for (auto s : scene)`. -/
def closestStep (sqrt : K → K) (ray : Ray K) (closest : Intersection K) (s : Surface K) :
    Intersection K :=
  let isect := s.intersect sqrt ray
  if isect.hit && decide (isect.distance < closest.distance) then isect else closest

/-- The closest-hit scan of `render`, started from the record `closest`. -/
def closestScan (sqrt : K → K) (ray : Ray K) (closest : Intersection K)
    (scene : List (Surface K)) : Intersection K :=
  scene.foldl (closestStep sqrt ray) closest

/-- The closest-hit scan as `render` runs it: `closest` holds the indeterminate contents
`junk`, except for `distance`, which is set to `FLT_MAX`. -/
def closestHit (sqrt : K → K) (junk : Intersection K) (ray : Ray K)
    (scene : List (Surface K)) : Intersection K :=
  closestScan sqrt ray { junk with distance := FLT_MAX } scene

/-- The four materials built by `render`: `mPlane`. -/
def mPlane : Material K := ⟨Vec3.splat (2 / 10), Vec3.splat 1, Vec3.splat 0, 0⟩

/-- The material `mS1` built by `render`. -/
def mS1 : Material K := ⟨⟨2 / 10, 0, 0⟩, ⟨1, 0, 0⟩, Vec3.splat 0, 0⟩

/-- The material `mS2` built by `render`. -/
def mS2 : Material K := ⟨⟨0, 2 / 10, 0⟩, ⟨0, 5 / 10, 0⟩, Vec3.splat (5 / 10), 32⟩

/-- The material `mS3` built by `render`. -/
def mS3 : Material K := ⟨⟨0, 0, 2 / 10⟩, ⟨0, 0, 1⟩, Vec3.splat 0, 0⟩

/-- The vector `scene` built by `render`, in `push_back` order. -/
def theScene (sqrt : K → K) : List (Surface K) :=
  [ Surface.sphere ⟨⟨-4, 0, -7⟩, 1, some mS1⟩,
    Surface.sphere ⟨⟨0, 0, -7⟩, 2, some mS2⟩,
    Surface.sphere ⟨⟨4, 0, -7⟩, 1, some mS3⟩,
    Surface.plane (Plane.new sqrt ⟨0, 1, 0⟩ 2 (some mPlane)) ]

/-- The camera `c` built by `render`. -/
def theCamera : Camera K := Camera.new ⟨0, 0, 0⟩ ⟨1, 0, 0⟩ ⟨0, 1, 0⟩ ⟨0, 0, 1⟩

/-- The body of the inner loop of `render` up to the gamma correction: the value of
`corrected` for the pixel `(i, j)`; `none` when `shade` dereferences a null pointer. -/
def pixel (sqrt : K → K) (powf : K → K → K) (scene : List (Surface K)) (cam : Camera K)
    (Width Height : Int) (junk : Intersection K) (i j : Int) : Option (Vec3 K) :=
  let ray := cam.getRay sqrt Width Height i j
  let closest := closestHit sqrt junk ray scene
  let color := if closest.hit then shade sqrt powf closest ray scene else some (Vec3.splat 0)
  match color with
  | none => none
  | some color =>
    let gamma : K := 1 / (22 / 10)
    some (Vec3.pow powf (Vec3.clamp color 0 1) (Vec3.splat gamma))

/-- The inner loop `for (i ...)` of `render` over the remaining columns, appending to `out`. -/
def renderRow (sqrt : K → K) (powf : K → K → K) (scene : List (Surface K)) (cam : Camera K)
    (Width Height : Int) (junk : Int → Int → Intersection K) (j : Nat) :
    List Nat → List K → Option (List K)
  | [], out => some out
  | i :: rest, out =>
    match pixel sqrt powf scene cam Width Height (junk i j) i j with
    | none => none
    | some corrected =>
      renderRow sqrt powf scene cam Width Height junk j rest
        (out ++ [corrected.x, corrected.y, corrected.z])

/-- The outer loop `for (j ...)` of `render` over the remaining rows. -/
def renderRows (sqrt : K → K) (powf : K → K → K) (scene : List (Surface K)) (cam : Camera K)
    (Width Height : Int) (junk : Int → Int → Intersection K) :
    List Nat → List K → Option (List K)
  | [], out => some out
  | j :: rest, out =>
    match renderRow sqrt powf scene cam Width Height junk j (List.range Width.toNat) out with
    | none => none
    | some out1 => renderRows sqrt powf scene cam Width Height junk rest out1

/-- The two loops of `render` for an arbitrary scene and camera, after `OutputImage.clear()`. -/
def renderWith (sqrt : K → K) (powf : K → K → K) (scene : List (Surface K)) (cam : Camera K)
    (Width Height : Int) (junk : Int → Int → Intersection K) (_OutputImage : List K) :
    Option (List K) :=
  renderRows sqrt powf scene cam Width Height junk (List.range Height.toNat) []

/-- The function `render`: the new contents of `OutputImage`, from the globals `Width`,
`Height` and the old contents of `OutputImage`. -/
def render (sqrt : K → K) (powf : K → K → K) (Width Height : Int)
    (junk : Int → Int → Intersection K) (OutputImage : List K) : Option (List K) :=
  renderWith sqrt powf (theScene sqrt) theCamera Width Height junk OutputImage

end Defs

/-! ## Concrete inputs used to evaluate the program -/

section Examples

/-- A ray from the origin along `+y`. -/
def upRay : Ray ℚ := ⟨⟨0, 0, 0⟩, ⟨0, 1, 0⟩⟩

/-- The plane `y = 3`, which `upRay` meets at distance `3`. -/
def planeAt3 : Surface ℚ := Surface.plane ⟨⟨0, 1, 0⟩, -3, some mPlane⟩

/-- The plane `y = FLT_MAX`, which `upRay` meets at distance `FLT_MAX`. -/
def planeAtMax : Surface ℚ := Surface.plane ⟨⟨0, 1, 0⟩, -FLT_MAX, some mPlane⟩

/-- A possible content of the uninitialised `closest`: a stale record with `hit = true`
whose material pointer points to a white ambient material. -/
def staleHit : Intersection ℝ :=
  ⟨true, 0, ⟨0, 0, 0⟩, ⟨0, 0, 0⟩, some ⟨Vec3.splat 1, Vec3.splat 0, Vec3.splat 0, 0⟩⟩

/-- The floor `y = -2`, which lies behind `upRay`. -/
def floorBelow : Surface ℚ := Surface.plane ⟨⟨0, 1, 0⟩, 2, some mS3⟩

/-- The plane `y = 3` again, with the material `mS1`. -/
def planeAt3b : Surface ℚ := Surface.plane ⟨⟨0, 1, 0⟩, -3, some mS1⟩

/-- The central camera ray: from the origin along `-z`. -/
def downRay {K : Type} [LinearOrderedField K] : Ray K := ⟨⟨0, 0, 0⟩, ⟨0, 0, -1⟩⟩

/-- The second sphere of the scene of `render`: centre `(0, 0, -7)`, radius `2`, material
`mS2`. -/
def centreSphere {K : Type} [LinearOrderedField K] : Surface K := Surface.sphere ⟨⟨0, 0, -7⟩, 2, some mS2⟩

/-- The hit of `downRay` on `centreSphere`: the apex `(0, 0, -5)` at distance `5`. -/
def apexHit {K : Type} [LinearOrderedField K] : Intersection K := ⟨true, 5, ⟨0, 0, -5⟩, ⟨0, 0, 1⟩, some mS2⟩

/-- The plane `y = 1`, which lies between the apex `(0, 0, -5)` and the light. -/
def roofPlane {K : Type} [LinearOrderedField K] : Surface K := Surface.plane ⟨⟨0, 1, 0⟩, -1, some mPlane⟩

end Examples

/-! ## Lemmas on the closest-hit scan -/

section Scan

variable {K : Type} [LinearOrderedField K]

theorem closestScan_nil (sqrt : K → K) (ray : Ray K) (c : Intersection K) :
    closestScan sqrt ray c [] = c := rfl

theorem closestScan_cons (sqrt : K → K) (ray : Ray K) (c : Intersection K) (s : Surface K)
    (rest : List (Surface K)) :
    closestScan sqrt ray c (s :: rest) = closestScan sqrt ray (closestStep sqrt ray c s) rest :=
  rfl

/-- The scan either keeps its start record, and then no surface hits nearer than it, or it
returns the hit of a surface that is strictly nearer than the start record and nearest in the
scene. -/
theorem closestScan_cases (sqrt : K → K) (ray : Ray K) (scene : List (Surface K)) :
    ∀ c : Intersection K,
      (closestScan sqrt ray c scene = c ∧
        ∀ s ∈ scene, (s.intersect sqrt ray).hit = true →
          c.distance ≤ (s.intersect sqrt ray).distance) ∨
      (∃ s ∈ scene, closestScan sqrt ray c scene = s.intersect sqrt ray ∧
        (s.intersect sqrt ray).hit = true ∧ (s.intersect sqrt ray).distance < c.distance ∧
        ∀ s2 ∈ scene, (s2.intersect sqrt ray).hit = true →
          (s.intersect sqrt ray).distance ≤ (s2.intersect sqrt ray).distance) := by
  induction scene with
  | nil => intro c; left; exact ⟨rfl, fun s hs => absurd hs (List.not_mem_nil s)⟩
  | cons s rest ih =>
    intro c
    rw [closestScan_cons]
    by_cases hs : (s.intersect sqrt ray).hit = true ∧ (s.intersect sqrt ray).distance < c.distance
    · have hstep : closestStep sqrt ray c s = s.intersect sqrt ray := by
        simp [closestStep, hs.1, hs.2]
      rw [hstep]
      right
      rcases ih (s.intersect sqrt ray) with ⟨heq, hall⟩ | ⟨s1, hmem, heq, hhit, hlt, hall⟩
      · refine ⟨s, List.mem_cons_self _ _, heq, hs.1, hs.2, ?_⟩
        intro s2 hs2 hh
        rcases List.mem_cons.1 hs2 with rfl | hr
        · exact le_refl _
        · exact hall s2 hr hh
      · refine ⟨s1, List.mem_cons_of_mem _ hmem, heq, hhit, lt_trans hlt hs.2, ?_⟩
        intro s2 hs2 hh
        rcases List.mem_cons.1 hs2 with rfl | hr
        · exact le_of_lt hlt
        · exact hall s2 hr hh
    · have hstep : closestStep sqrt ray c s = c := by
        unfold closestStep
        by_cases hh : (s.intersect sqrt ray).hit = true
        · have : ¬ (s.intersect sqrt ray).distance < c.distance := fun h => hs ⟨hh, h⟩
          simp [hh, this]
        · simp [hh]
      rw [hstep]
      have hge : (s.intersect sqrt ray).hit = true →
          c.distance ≤ (s.intersect sqrt ray).distance := fun hh =>
        not_lt.1 (fun h => hs ⟨hh, h⟩)
      rcases ih c with ⟨heq, hall⟩ | ⟨s1, hmem, heq, hhit, hlt, hall⟩
      · left
        refine ⟨heq, ?_⟩
        intro s2 hs2 hh
        rcases List.mem_cons.1 hs2 with rfl | hr
        · exact hge hh
        · exact hall s2 hr hh
      · right
        refine ⟨s1, List.mem_cons_of_mem _ hmem, heq, hhit, hlt, ?_⟩
        intro s2 hs2 hh
        rcases List.mem_cons.1 hs2 with rfl | hr
        · exact le_trans (le_of_lt hlt) (hge hh)
        · exact hall s2 hr hh

/-- A scan over surfaces that all miss returns its start record. -/
theorem closestScan_all_miss (sqrt : K → K) (ray : Ray K)
    (scene : List (Surface K)) :
    ∀ c : Intersection K, (∀ s ∈ scene, (s.intersect sqrt ray).hit = false) →
      closestScan sqrt ray c scene = c := by
  induction scene with
  | nil => intro c _; rfl
  | cons s rest ih =>
    intro c h
    rw [closestScan_cons]
    have hs : closestStep sqrt ray c s = c := by
      simp [closestStep, h s (List.mem_cons_self _ _)]
    rw [hs]
    exact ih c (fun s2 h2 => h s2 (List.mem_cons_of_mem _ h2))

end Scan

/-! ## Nearest-hit selection -/

section Nearest

variable {K : Type} [LinearOrderedField K]

/-- C1 (as amended): for every ray and scene, if some surface reports a hit whose distance is
below the sentinel `FLT_MAX`, the closest-hit scan of `render` returns a record with
`hit = true` that is the intersect result of a surface of the scene and whose distance is at
most the distance of every surface that reports a hit; this holds whatever the uninitialised
contents of `closest` were. -/
theorem closestHit_nearest (sqrt : K → K) (junk : Intersection K) (ray : Ray K)
    (scene : List (Surface K))
    (h : ∃ s ∈ scene, (s.intersect sqrt ray).hit = true ∧
      (s.intersect sqrt ray).distance < FLT_MAX) :
    (closestHit sqrt junk ray scene).hit = true ∧
    (∃ s ∈ scene, closestHit sqrt junk ray scene = s.intersect sqrt ray) ∧
    ∀ s ∈ scene, (s.intersect sqrt ray).hit = true →
      (closestHit sqrt junk ray scene).distance ≤ (s.intersect sqrt ray).distance := by
  obtain ⟨s0, hs0, hhit0, hlt0⟩ := h
  unfold closestHit
  rcases closestScan_cases sqrt ray scene { junk with distance := FLT_MAX } with
    ⟨_, hall⟩ | ⟨s1, hmem, heq, hhit, _, hall⟩
  · exact absurd hlt0 (not_lt.2 (hall s0 hs0 hhit0))
  · rw [heq]
    exact ⟨hhit, ⟨s1, hmem, rfl⟩, hall⟩

/-- Witness for `closestHit_nearest`: the plane `y = 3` seen along `+y`. -/
theorem closestHit_nearest_witness :
    (∃ s ∈ [planeAt3], (s.intersect (fun x => x) upRay).hit = true ∧
      (s.intersect (fun x => x) upRay).distance < FLT_MAX) ∧
    ((closestHit (fun x => x) Intersection.miss upRay [planeAt3]).hit = true ∧
    (∃ s ∈ [planeAt3], closestHit (fun x => x) Intersection.miss upRay [planeAt3]
      = s.intersect (fun x => x) upRay) ∧
    ∀ s ∈ [planeAt3], (s.intersect (fun x => x) upRay).hit = true →
      (closestHit (fun x => x) Intersection.miss upRay [planeAt3]).distance
        ≤ (s.intersect (fun x => x) upRay).distance) :=
  have h : ∃ s ∈ [planeAt3], (s.intersect (fun x => x) upRay).hit = true ∧
      (s.intersect (fun x => x) upRay).distance < FLT_MAX :=
    ⟨planeAt3, List.mem_singleton_self _, by
      norm_num [planeAt3, upRay, Surface.intersect, Plane.intersect, Vec3.dot, FLT_MAX]⟩
  ⟨h, closestHit_nearest (fun x => x) Intersection.miss upRay [planeAt3] h⟩

/-- C1 (as stated) fails: the plane `y = FLT_MAX` reports a hit for `upRay`, at distance
`FLT_MAX`, which is not below the sentinel; the scan keeps the start record, here with
`hit = false`. -/
theorem closestHit_sentinel_hit_lost :
    (∃ s ∈ [planeAtMax], (s.intersect (fun x => x) upRay).hit = true) ∧
    (closestHit (fun x => x) Intersection.miss upRay [planeAtMax]).hit = false := by
  constructor
  · refine ⟨planeAtMax, List.mem_singleton_self _, ?_⟩
    norm_num [planeAtMax, upRay, Surface.intersect, Plane.intersect, Vec3.dot, FLT_MAX]
  · norm_num [closestHit, closestScan, closestStep, planeAtMax, upRay, Surface.intersect,
      Plane.intersect, Vec3.dot, FLT_MAX, Intersection.miss]

end Nearest

/-! ## A pixel whose ray misses every surface -/

section Sky

/-- The camera ray of pixel `(0, 511)` of a `512 x 512` image: a positive multiple of
`(-511/5120, 511/5120, -1/10)` from the origin. -/
theorem skyRay_eq :
    ∃ σ : ℝ, 0 < σ ∧ (theCamera : Camera ℝ).getRay Real.sqrt 512 512 0 511 =
      ⟨⟨0, 0, 0⟩, Vec3.muls ⟨-(511 / 5120), 511 / 5120, -(1 / 10)⟩ σ⟩ := by
  refine ⟨1 / Real.sqrt (Vec3.dot (⟨-(511 / 5120), 511 / 5120, -(1 / 10)⟩ : Vec3 ℝ)
    ⟨-(511 / 5120), 511 / 5120, -(1 / 10)⟩), ?_, ?_⟩
  · apply one_div_pos.2
    apply Real.sqrt_pos.2
    norm_num [Vec3.dot]
  · simp only [Camera.getRay, theCamera, Camera.new, Vec3.normalize, Vec3.dot]
    norm_num

/-- A ray from the origin misses a sphere when the discriminant is negative. -/
theorem sphere_miss_from_origin (c v : Vec3 ℝ) (r σ : ℝ) (m : Option (Material ℝ))
    (hσ : 0 < σ)
    (h : (Vec3.dot c v) ^ 2 < Vec3.dot v v * (Vec3.dot c c - r ^ 2)) :
    ((⟨c, r, m⟩ : Sphere ℝ).intersect Real.sqrt ⟨⟨0, 0, 0⟩, Vec3.muls v σ⟩).hit = false := by
  have hd : 2 * Vec3.dot (Vec3.sub (⟨0, 0, 0⟩ : Vec3 ℝ) c) (Vec3.muls v σ) *
      (2 * Vec3.dot (Vec3.sub (⟨0, 0, 0⟩ : Vec3 ℝ) c) (Vec3.muls v σ)) -
      4 * Vec3.dot (Vec3.muls v σ) (Vec3.muls v σ) *
      (Vec3.dot (Vec3.sub (⟨0, 0, 0⟩ : Vec3 ℝ) c) (Vec3.sub ⟨0, 0, 0⟩ c) - r * r) < 0 := by
    have e : 2 * Vec3.dot (Vec3.sub (⟨0, 0, 0⟩ : Vec3 ℝ) c) (Vec3.muls v σ) *
        (2 * Vec3.dot (Vec3.sub (⟨0, 0, 0⟩ : Vec3 ℝ) c) (Vec3.muls v σ)) -
        4 * Vec3.dot (Vec3.muls v σ) (Vec3.muls v σ) *
        (Vec3.dot (Vec3.sub (⟨0, 0, 0⟩ : Vec3 ℝ) c) (Vec3.sub ⟨0, 0, 0⟩ c) - r * r)
        = 4 * σ ^ 2 * ((Vec3.dot c v) ^ 2 - Vec3.dot v v * (Vec3.dot c c - r ^ 2)) := by
      simp only [Vec3.dot, Vec3.sub, Vec3.muls]
      ring
    rw [e]
    exact mul_neg_of_pos_of_neg (by positivity) (by linarith)
  simp only [Sphere.intersect]
  rw [if_pos hd]
  rfl

/-- A ray from the origin that goes upwards misses the floor plane of `render`. -/
theorem plane_miss_from_origin (v : Vec3 ℝ) (σ : ℝ) (m : Option (Material ℝ))
    (hσ : 0 < σ) (hy : 0 < v.y) :
    ((Plane.new Real.sqrt ⟨0, 1, 0⟩ 2 m).intersect ⟨⟨0, 0, 0⟩, Vec3.muls v σ⟩).hit = false := by
  have hden : Vec3.dot (Plane.new Real.sqrt ⟨0, 1, 0⟩ 2 m).normal (Vec3.muls v σ) = v.y * σ := by
    simp [Plane.new, Vec3.normalize, Vec3.dot, Vec3.muls]
  have hpos : 0 < v.y * σ := mul_pos hy hσ
  have hor : Vec3.dot (Plane.new Real.sqrt ⟨0, 1, 0⟩ 2 m).normal (⟨0, 0, 0⟩ : Vec3 ℝ) = 0 := by
    simp [Vec3.dot]
  have hd : (Plane.new Real.sqrt ⟨0, 1, 0⟩ 2 m).d = 2 := rfl
  simp only [Plane.intersect, hden, hor, hd]
  have ht : ¬ (-(0 + 2) / (v.y * σ) ≥ 1 / 1000) := by
    have : -(0 + 2) / (v.y * σ) < 0 := div_neg_of_neg_of_pos (by norm_num) hpos
    intro h
    linarith
  rw [if_neg ht]
  split <;> rfl

/-- C2 (the code at a failing input): for `Width = Height = 512` the camera ray of pixel
`(0, 511)` misses all four surfaces of the scene of `render`; the scan then returns the
uninitialised `closest`, and when that holds a stale record with `hit = true` the pixel is
shaded, here to `(1, 1, 1)` instead of black. -/
theorem render_sky_pixel_not_black :
    (∀ s ∈ theScene Real.sqrt, (s.intersect Real.sqrt
      ((theCamera : Camera ℝ).getRay Real.sqrt 512 512 0 511)).hit = false) ∧
    (closestHit Real.sqrt staleHit ((theCamera : Camera ℝ).getRay Real.sqrt 512 512 0 511)
      (theScene Real.sqrt)).hit = true ∧
    pixel Real.sqrt Real.rpow (theScene Real.sqrt) theCamera 512 512 staleHit 0 511
      = some ⟨1, 1, 1⟩ := by
  obtain ⟨σ, hσ, hray⟩ := skyRay_eq
  have hmiss : ∀ s ∈ theScene Real.sqrt, (s.intersect Real.sqrt
      ((theCamera : Camera ℝ).getRay Real.sqrt 512 512 0 511)).hit = false := by
    intro s hs
    rw [hray]
    simp only [theScene, List.mem_cons, List.mem_singleton, List.not_mem_nil, or_false] at hs
    rcases hs with rfl | rfl | rfl | rfl
    · exact sphere_miss_from_origin _ _ _ _ _ hσ (by norm_num [Vec3.dot])
    · exact sphere_miss_from_origin _ _ _ _ _ hσ (by norm_num [Vec3.dot])
    · exact sphere_miss_from_origin _ _ _ _ _ hσ (by norm_num [Vec3.dot])
    · exact plane_miss_from_origin _ _ _ hσ (by norm_num)
  have hclosest : closestHit Real.sqrt staleHit
      ((theCamera : Camera ℝ).getRay Real.sqrt 512 512 0 511) (theScene Real.sqrt)
      = { staleHit with distance := FLT_MAX } := by
    unfold closestHit
    exact closestScan_all_miss _ _ _ _ hmiss
  refine ⟨hmiss, ?_, ?_⟩
  · rw [hclosest]; rfl
  · simp only [pixel]
    rw [hclosest]
    simp [shade, staleHit, Vec3.mul, Vec3.muls, Vec3.add, Vec3.splat, lightColor, Vec3.clamp,
      Vec3.pow]

/-- With `closest.hit` reading as false, a pixel whose ray misses every surface is black. -/
theorem pixel_miss_black (sqrt : ℝ → ℝ) (scene : List (Surface ℝ)) (cam : Camera ℝ)
    (Width Height : Int) (jk : Intersection ℝ) (i j : Int)
    (hmiss : ∀ s ∈ scene, (s.intersect sqrt (cam.getRay sqrt Width Height i j)).hit = false)
    (hjk : jk.hit = false) :
    (closestHit sqrt jk (cam.getRay sqrt Width Height i j) scene).hit = false ∧
    pixel sqrt Real.rpow scene cam Width Height jk i j = some ⟨0, 0, 0⟩ := by
  have hclosest : closestHit sqrt jk (cam.getRay sqrt Width Height i j) scene
      = { jk with distance := FLT_MAX } := by
    unfold closestHit
    exact closestScan_all_miss _ _ _ _ hmiss
  constructor
  · rw [hclosest]; exact hjk
  · simp only [pixel]
    rw [hclosest]
    simp [hjk, Vec3.splat, Vec3.clamp, Vec3.pow]

end Sky

/-! ## The render loops -/

section Loops

/-- Reading back the three floats appended to a buffer. -/
theorem append_triple_get {K : Type} (out : List K) (a b c : K) :
    (out ++ [a, b, c])[out.length]? = some a ∧
    (out ++ [a, b, c])[out.length + 1]? = some b ∧
    (out ++ [a, b, c])[out.length + 2]? = some c := by
  refine ⟨?_, ?_, ?_⟩
  · rw [List.getElem?_append_right (le_refl _)]; simp
  · rw [List.getElem?_append_right (by omega)]; simp
  · rw [List.getElem?_append_right (by omega)]; simp

variable {K : Type} [LinearOrderedField K] (sqrt : K → K) (powf : K → K → K)
  (scene : List (Surface K)) (cam : Camera K) (Width Height : Int)
  (junk : Int → Int → Intersection K)

theorem renderRow_cons_none (j i : Nat) (rest : List Nat) (out : List K)
    (h : pixel sqrt powf scene cam Width Height (junk i j) i j = none) :
    renderRow sqrt powf scene cam Width Height junk j (i :: rest) out = none := by
  simp only [renderRow, h]

theorem renderRow_cons_some (j i : Nat) (rest : List Nat) (out : List K) (c : Vec3 K)
    (h : pixel sqrt powf scene cam Width Height (junk i j) i j = some c) :
    renderRow sqrt powf scene cam Width Height junk j (i :: rest) out =
      renderRow sqrt powf scene cam Width Height junk j rest (out ++ [c.x, c.y, c.z]) := by
  simp only [renderRow, h]

/-- The inner loop appends exactly three floats per column. -/
theorem renderRow_length (j : Nat) (cols : List Nat) :
    ∀ out res : List K,
      renderRow sqrt powf scene cam Width Height junk j cols out = some res →
      res.length = out.length + 3 * cols.length := by
  induction cols with
  | nil =>
    intro out res h
    simp only [renderRow, Option.some.injEq] at h
    simp [← h]
  | cons i rest ih =>
    intro out res h
    cases hc : pixel sqrt powf scene cam Width Height (junk i j) i j with
    | none => rw [renderRow_cons_none _ _ _ _ _ _ _ _ _ _ _ hc] at h; exact absurd h (by simp)
    | some c =>
      rw [renderRow_cons_some _ _ _ _ _ _ _ _ _ _ _ _ hc] at h
      rw [ih _ _ h]
      simp only [List.length_append, List.length_cons, List.length_nil]
      omega

/-- The inner loop keeps what was in the buffer and stores the triple of the `k`-th column
at offset `3 * k` behind it. -/
theorem renderRow_get (j : Nat) (cols : List Nat) :
    ∀ out res : List K,
      renderRow sqrt powf scene cam Width Height junk j cols out = some res →
      (∀ n, n < out.length → res[n]? = out[n]?) ∧
      ∀ k i : Nat, cols[k]? = some i →
        ∃ c, pixel sqrt powf scene cam Width Height (junk i j) i j = some c ∧
          res[out.length + 3 * k]? = some c.x ∧
          res[out.length + 3 * k + 1]? = some c.y ∧
          res[out.length + 3 * k + 2]? = some c.z := by
  induction cols with
  | nil =>
    intro out res h
    simp only [renderRow, Option.some.injEq] at h
    subst h
    exact ⟨fun _ _ => rfl, fun k i hk => by simp at hk⟩
  | cons i0 rest ih =>
    intro out res h
    cases hc : pixel sqrt powf scene cam Width Height (junk i0 j) i0 j with
    | none => rw [renderRow_cons_none _ _ _ _ _ _ _ _ _ _ _ hc] at h; exact absurd h (by simp)
    | some c =>
      rw [renderRow_cons_some _ _ _ _ _ _ _ _ _ _ _ _ hc] at h
      obtain ⟨hpre, hget⟩ := ih _ _ h
      have hlen : (out ++ [c.x, c.y, c.z]).length = out.length + 3 := by simp
      constructor
      · intro n hn
        rw [hpre n (by rw [hlen]; omega), List.getElem?_append_left hn]
      · intro k i hk
        cases k with
        | zero =>
          simp only [List.getElem?_cons_zero, Option.some.injEq] at hk
          subst hk
          refine ⟨c, hc, ?_, ?_, ?_⟩
          · rw [hpre _ (by rw [hlen]; omega)]
            exact (append_triple_get out c.x c.y c.z).1
          · rw [hpre _ (by rw [hlen]; omega)]
            exact (append_triple_get out c.x c.y c.z).2.1
          · rw [hpre _ (by rw [hlen]; omega)]
            exact (append_triple_get out c.x c.y c.z).2.2
        | succ k =>
          simp only [List.getElem?_cons_succ] at hk
          obtain ⟨c2, hc2, hx, hy, hz⟩ := hget k i hk
          rw [hlen] at hx hy hz
          refine ⟨c2, hc2, ?_, ?_, ?_⟩
          · rw [← hx]; congr 1; omega
          · rw [← hy]; congr 1; omega
          · rw [← hz]; congr 1; omega

/-- The inner loop returns when no pixel dereferences a null pointer. -/
theorem renderRow_some
    (hp : ∀ i j : Nat, ∃ c, pixel sqrt powf scene cam Width Height (junk i j) i j = some c)
    (j : Nat) (cols : List Nat) :
    ∀ out : List K, ∃ res,
      renderRow sqrt powf scene cam Width Height junk j cols out = some res := by
  induction cols with
  | nil => intro out; exact ⟨out, rfl⟩
  | cons i rest ih =>
    intro out
    obtain ⟨c, hc⟩ := hp i j
    rw [renderRow_cons_some _ _ _ _ _ _ _ _ _ _ _ _ hc]
    exact ih _

theorem renderRows_cons_none (j : Nat) (rest : List Nat) (out : List K)
    (h : renderRow sqrt powf scene cam Width Height junk j (List.range Width.toNat) out = none) :
    renderRows sqrt powf scene cam Width Height junk (j :: rest) out = none := by
  simp only [renderRows, h]

theorem renderRows_cons_some (j : Nat) (rest : List Nat) (out out1 : List K)
    (h : renderRow sqrt powf scene cam Width Height junk j (List.range Width.toNat) out
      = some out1) :
    renderRows sqrt powf scene cam Width Height junk (j :: rest) out =
      renderRows sqrt powf scene cam Width Height junk rest out1 := by
  simp only [renderRows, h]

/-- The outer loop appends `3 * Width` floats per row. -/
theorem renderRows_length (rows : List Nat) :
    ∀ out res : List K,
      renderRows sqrt powf scene cam Width Height junk rows out = some res →
      res.length = out.length + 3 * (Width.toNat * rows.length) := by
  induction rows with
  | nil =>
    intro out res h
    simp only [renderRows, Option.some.injEq] at h
    simp [← h]
  | cons j rest ih =>
    intro out res h
    cases hr : renderRow sqrt powf scene cam Width Height junk j (List.range Width.toNat) out with
    | none => rw [renderRows_cons_none _ _ _ _ _ _ _ _ _ _ hr] at h; exact absurd h (by simp)
    | some out1 =>
      rw [renderRows_cons_some _ _ _ _ _ _ _ _ _ _ _ hr] at h
      rw [ih _ _ h, renderRow_length _ _ _ _ _ _ _ _ _ _ _ hr]
      simp only [List.length_range, List.length_cons]
      ring

/-- The outer loop keeps what was in the buffer and stores the triple of column `i` of the
`a`-th row at offset `3 * (a * Width + i)` behind it. -/
theorem renderRows_get (rows : List Nat) :
    ∀ out res : List K,
      renderRows sqrt powf scene cam Width Height junk rows out = some res →
      (∀ n, n < out.length → res[n]? = out[n]?) ∧
      ∀ a j i : Nat, rows[a]? = some j → i < Width.toNat →
        ∃ c, pixel sqrt powf scene cam Width Height (junk i j) i j = some c ∧
          res[out.length + 3 * (a * Width.toNat + i)]? = some c.x ∧
          res[out.length + 3 * (a * Width.toNat + i) + 1]? = some c.y ∧
          res[out.length + 3 * (a * Width.toNat + i) + 2]? = some c.z := by
  induction rows with
  | nil =>
    intro out res h
    simp only [renderRows, Option.some.injEq] at h
    subst h
    exact ⟨fun _ _ => rfl, fun a j i ha => by simp at ha⟩
  | cons j0 rest ih =>
    intro out res h
    cases hr : renderRow sqrt powf scene cam Width Height junk j0 (List.range Width.toNat) out with
    | none => rw [renderRows_cons_none _ _ _ _ _ _ _ _ _ _ hr] at h; exact absurd h (by simp)
    | some out1 =>
      rw [renderRows_cons_some _ _ _ _ _ _ _ _ _ _ _ hr] at h
      obtain ⟨hpre, hget⟩ := ih _ _ h
      obtain ⟨hpre1, hget1⟩ := renderRow_get _ _ _ _ _ _ _ _ _ _ _ hr
      have hlen : out1.length = out.length + 3 * Width.toNat := by
        rw [renderRow_length _ _ _ _ _ _ _ _ _ _ _ hr, List.length_range]
      constructor
      · intro n hn
        rw [hpre n (by omega), hpre1 n hn]
      · intro a j i ha hi
        cases a with
        | zero =>
          simp only [List.getElem?_cons_zero, Option.some.injEq] at ha
          subst ha
          obtain ⟨c, hc, hx, hy, hz⟩ := hget1 i i (by simp [List.getElem?_range hi])
          refine ⟨c, hc, ?_, ?_, ?_⟩
          · rw [hpre _ (by omega), ← hx]; congr 1; omega
          · rw [hpre _ (by omega), ← hy]; congr 1; omega
          · rw [hpre _ (by omega), ← hz]; congr 1; omega
        | succ a =>
          simp only [List.getElem?_cons_succ] at ha
          obtain ⟨c, hc, hx, hy, hz⟩ := hget a j i ha hi
          have e : out1.length + 3 * (a * Width.toNat + i)
              = out.length + 3 * ((a + 1) * Width.toNat + i) := by
            rw [hlen]; ring
          rw [e] at hx hy hz
          exact ⟨c, hc, hx, hy, hz⟩

/-- The outer loop returns when no pixel dereferences a null pointer. -/
theorem renderRows_some
    (hp : ∀ i j : Nat, ∃ c, pixel sqrt powf scene cam Width Height (junk i j) i j = some c)
    (rows : List Nat) :
    ∀ out : List K, ∃ res,
      renderRows sqrt powf scene cam Width Height junk rows out = some res := by
  induction rows with
  | nil => intro out; exact ⟨out, rfl⟩
  | cons j rest ih =>
    intro out
    obtain ⟨out1, hr⟩ := renderRow_some _ _ _ _ _ _ _ hp j (List.range Width.toNat) out
    rw [renderRows_cons_some _ _ _ _ _ _ _ _ _ _ _ hr]
    exact ih _

/-- A hit record carries the material pointer of the surface that produced it. -/
theorem intersect_hit_material (s : Surface K) (ray : Ray K)
    (h : (s.intersect sqrt ray).hit = true) :
    (s.intersect sqrt ray).material = s.material := by
  cases s with
  | plane p =>
    simp only [Surface.intersect, Plane.intersect, Surface.material] at h ⊢
    split_ifs at h ⊢ <;> simp_all [Intersection.miss]
  | sphere sp =>
    simp only [Surface.intersect, Sphere.intersect, Surface.material] at h ⊢
    split_ifs at h ⊢ <;> simp_all [Intersection.miss]

/-- The function `shade` returns a colour when the material pointer is not null. -/
theorem shade_some (hit : Intersection K) (ray : Ray K) (mat : Material K)
    (h : hit.material = some mat) : ∃ c, shade sqrt powf hit ray scene = some c := by
  unfold shade
  rw [h]
  dsimp only
  split_ifs
  · exact ⟨_, rfl⟩
  · exact ⟨_, rfl⟩

/-- The pixel body returns a colour when the surfaces have materials and the uninitialised
record, if its `hit` reads as true, has a material pointer that can be dereferenced. -/
theorem pixel_some (hs : ∀ s ∈ scene, s.material ≠ none) (jk : Intersection K)
    (hj : jk.hit = true → jk.material ≠ none) (i j : Int) :
    ∃ c, pixel sqrt powf scene cam Width Height jk i j = some c := by
  have key : ∀ hit : Intersection K, ∀ ray : Ray K,
      (hit.hit = true → hit.material ≠ none) →
      ∃ col, (if hit.hit then shade sqrt powf hit ray scene else some (Vec3.splat 0))
        = some col := by
    intro hit ray hm
    by_cases hh : hit.hit = true
    · rw [if_pos hh]
      obtain ⟨mat, hmat⟩ := Option.ne_none_iff_exists'.1 (hm hh)
      exact shade_some sqrt powf scene hit ray mat hmat
    · rw [if_neg hh]; exact ⟨_, rfl⟩
  have hcl : (closestHit sqrt jk (cam.getRay sqrt Width Height i j) scene).hit = true →
      (closestHit sqrt jk (cam.getRay sqrt Width Height i j) scene).material ≠ none := by
    unfold closestHit
    rcases closestScan_cases sqrt (cam.getRay sqrt Width Height i j) scene
      { jk with distance := FLT_MAX } with ⟨heq, _⟩ | ⟨s1, hmem, heq, hhit, _, _⟩
    · rw [heq]; exact hj
    · rw [heq]
      intro _
      rw [intersect_hit_material sqrt s1 _ hhit]
      exact hs s1 hmem
  obtain ⟨col, hcol⟩ := key _ (cam.getRay sqrt Width Height i j) hcl
  simp only [pixel]
  rw [hcol]
  exact ⟨_, rfl⟩

/-- The function `renderWith` returns a buffer when no pixel can dereference a null pointer. -/
theorem renderWith_some (hs : ∀ s ∈ scene, s.material ≠ none)
    (hj : ∀ i j, (junk i j).hit = true → (junk i j).material ≠ none) (OutputImage : List K) :
    ∃ buf, renderWith sqrt powf scene cam Width Height junk OutputImage = some buf :=
  renderRows_some sqrt powf scene cam Width Height junk
    (fun i j => pixel_some sqrt powf scene cam Width Height hs (junk i j) (hj i j) i j) _ _

/-- Every surface of the scene of `render` has a material. -/
theorem theScene_material (s : Surface K) (h : s ∈ theScene sqrt) : s.material ≠ none := by
  simp only [theScene, List.mem_cons, List.mem_singleton, List.not_mem_nil, or_false] at h
  rcases h with rfl | rfl | rfl | rfl <;> simp [Surface.material, Plane.new]

end Loops

/-! ## The output buffer -/

section Buffer

variable {K : Type} [LinearOrderedField K]

/-- C3: for every `Width >= 0`, `Height >= 0` and every prior content of `OutputImage`, a
buffer returned by `render` has exactly `Width * Height * 3` elements, whatever the prior
content was; and `render` does return a buffer when the uninitialised `closest` never holds
`hit = true` together with a null material pointer. -/
theorem render_length (sqrt : K → K) (powf : K → K → K) (Width Height : Int)
    (junk : Int → Int → Intersection K) (OutputImage : List K)
    (hW : 0 ≤ Width) (hH : 0 ≤ Height) :
    (∀ buf, render sqrt powf Width Height junk OutputImage = some buf →
      (buf.length : Int) = Width * Height * 3) ∧
    ((∀ i j, (junk i j).hit = true → (junk i j).material ≠ none) →
      ∃ buf, render sqrt powf Width Height junk OutputImage = some buf) := by
  constructor
  · intro buf h
    have hl := renderRows_length sqrt powf (theScene sqrt) theCamera Width Height junk _ _ _ h
    rw [hl]
    simp only [List.length_nil, List.length_range, zero_add]
    push_cast
    rw [Int.toNat_of_nonneg hW, Int.toNat_of_nonneg hH]
    ring
  · intro hj
    exact renderWith_some sqrt powf (theScene sqrt) theCamera Width Height junk
      (theScene_material sqrt) hj OutputImage

/-- Witness for `render_length`: a `2 x 3` image over the rationals, rendered over a
non-empty old buffer. -/
theorem render_length_witness :
    (0 : Int) ≤ 2 ∧ (0 : Int) ≤ 3 ∧
    ((∀ buf, render (fun x : ℚ => x) (fun x _ => x) 2 3 (fun _ _ => Intersection.miss) [1, 2]
        = some buf → (buf.length : Int) = 2 * 3 * 3) ∧
    ((∀ i j, ((fun _ _ => Intersection.miss : Int → Int → Intersection ℚ) i j).hit = true →
        ((fun _ _ => Intersection.miss : Int → Int → Intersection ℚ) i j).material ≠ none) →
      ∃ buf, render (fun x : ℚ => x) (fun x _ => x) 2 3 (fun _ _ => Intersection.miss) [1, 2]
        = some buf)) :=
  ⟨by decide, by decide,
    render_length (fun x : ℚ => x) (fun x _ => x) 2 3 (fun _ _ => Intersection.miss) [1, 2]
      (by decide) (by decide)⟩

/-- C4: for every pixel `0 <= i < Width`, `0 <= j < Height`, the triple that the loop body
computes for the camera ray `getRay(i, j)` is stored at the indices `3 * (j * Width + i)`,
`+ 1` and `+ 2` of a buffer returned by `render`, in the order R, G, B; and `render` does
return a buffer when the uninitialised `closest` never holds `hit = true` together with a
null material pointer. -/
theorem render_layout (sqrt : K → K) (powf : K → K → K) (Width Height : Int)
    (junk : Int → Int → Intersection K) (OutputImage : List K) (i j : Nat)
    (hi : (i : Int) < Width) (hj : (j : Int) < Height) :
    (∀ buf, render sqrt powf Width Height junk OutputImage = some buf →
      ∃ c, pixel sqrt powf (theScene sqrt) theCamera Width Height (junk i j) i j = some c ∧
        buf[3 * (j * Width.toNat + i)]? = some c.x ∧
        buf[3 * (j * Width.toNat + i) + 1]? = some c.y ∧
        buf[3 * (j * Width.toNat + i) + 2]? = some c.z) ∧
    ((∀ i j, (junk i j).hit = true → (junk i j).material ≠ none) →
      ∃ buf, render sqrt powf Width Height junk OutputImage = some buf) := by
  constructor
  · intro buf h
    have hg := (renderRows_get sqrt powf (theScene sqrt) theCamera Width Height junk _ _ _ h).2
      j j i (List.getElem?_range (by omega)) (by omega)
    simpa only [List.length_nil, zero_add] using hg
  · intro hjk
    exact renderWith_some sqrt powf (theScene sqrt) theCamera Width Height junk
      (theScene_material sqrt) hjk OutputImage

/-- Witness for `render_layout`: pixel `(1, 2)` of a `2 x 3` image over the rationals. -/
theorem render_layout_witness :
    ((1 : Nat) : Int) < 2 ∧ ((2 : Nat) : Int) < 3 ∧
    ((∀ buf, render (fun x : ℚ => x) (fun x _ => x) 2 3 (fun _ _ => Intersection.miss) []
        = some buf →
      ∃ c, pixel (fun x : ℚ => x) (fun x _ => x) (theScene (fun x : ℚ => x)) theCamera 2 3
          ((fun _ _ => Intersection.miss : Int → Int → Intersection ℚ) (1 : Nat) (2 : Nat))
          (1 : Nat) (2 : Nat) = some c ∧
        buf[3 * (2 * (2 : Int).toNat + 1)]? = some c.x ∧
        buf[3 * (2 * (2 : Int).toNat + 1) + 1]? = some c.y ∧
        buf[3 * (2 * (2 : Int).toNat + 1) + 2]? = some c.z) ∧
    ((∀ i j, ((fun _ _ => Intersection.miss : Int → Int → Intersection ℚ) i j).hit = true →
        ((fun _ _ => Intersection.miss : Int → Int → Intersection ℚ) i j).material ≠ none) →
      ∃ buf, render (fun x : ℚ => x) (fun x _ => x) 2 3 (fun _ _ => Intersection.miss) []
        = some buf)) :=
  ⟨by decide, by decide,
    render_layout (fun x : ℚ => x) (fun x _ => x) 2 3 (fun _ _ => Intersection.miss) [] 1 2
      (by decide) (by decide)⟩

end Buffer

/-! ## Ray generation -/

section CameraRays

/-- Normalising a vector that is not the zero vector gives a vector of length one. -/
theorem length_normalize (v : Vec3 ℝ) (h : 0 < Vec3.dot v v) :
    Vec3.length Real.sqrt (Vec3.normalize Real.sqrt v) = 1 := by
  have hs : 0 < Real.sqrt (Vec3.dot v v) := Real.sqrt_pos.2 h
  have hq : Real.sqrt (Vec3.dot v v) * Real.sqrt (Vec3.dot v v) = Vec3.dot v v :=
    Real.mul_self_sqrt (le_of_lt h)
  have e : Vec3.dot (Vec3.normalize Real.sqrt v) (Vec3.normalize Real.sqrt v) = 1 := by
    have e1 : Vec3.dot (Vec3.normalize Real.sqrt v) (Vec3.normalize Real.sqrt v)
        = Vec3.dot v v * (1 / Real.sqrt (Vec3.dot v v)) ^ 2 := by
      simp only [Vec3.normalize, Vec3.muls, Vec3.dot]
      ring
    rw [e1, div_pow, one_pow, pow_two, hq]
    exact mul_one_div_cancel (ne_of_gt h)
  unfold Vec3.length
  rw [e, Real.sqrt_one]

/-- A vector with a non-zero `z` component has a positive squared length. -/
theorem dot_self_pos_of_z (v : Vec3 ℝ) (hz : v.z ≠ 0) : 0 < Vec3.dot v v := by
  have h1 := mul_self_nonneg v.x
  have h2 := mul_self_nonneg v.y
  have h3 := mul_self_pos.2 hz
  unfold Vec3.dot
  linarith

/-- C6: for every camera built by the constructor, every `Width, Height > 0` and every pixel
`0 <= i < Width`, `0 <= j < Height`, `getRay(i, j)` has origin `eye` and as direction the
normalisation of `(su, sv, -d)`, which has length one, where
`su = l + (r - l) * (i + 0.5) / Width` lies in `[l, r]` and
`sv = b + (t - b) * (j + 0.5) / Height` lies in `[b, t]`, with `l = b = -0.1`,
`r = t = 0.1`, `d = 0.1`. -/
theorem getRay_spec (e u v w : Vec3 ℝ) (Width Height i j : Int)
    (hi0 : 0 ≤ i) (hi : i < Width) (hj0 : 0 ≤ j) (hj : j < Height) :
    ((Camera.new e u v w).getRay Real.sqrt Width Height i j).origin = e ∧
    ((Camera.new e u v w).getRay Real.sqrt Width Height i j).direction =
      Vec3.normalize Real.sqrt
        ⟨-(1 / 10) + (1 / 10 - -(1 / 10)) * ((i : ℝ) + 1 / 2) / (Width : ℝ),
         -(1 / 10) + (1 / 10 - -(1 / 10)) * ((j : ℝ) + 1 / 2) / (Height : ℝ),
         -(1 / 10)⟩ ∧
    Vec3.length Real.sqrt
      ((Camera.new e u v w).getRay Real.sqrt Width Height i j).direction = 1 ∧
    (-(1 / 10) ≤ -(1 / 10) + (1 / 10 - -(1 / 10)) * ((i : ℝ) + 1 / 2) / (Width : ℝ) ∧
      -(1 / 10) + (1 / 10 - -(1 / 10)) * ((i : ℝ) + 1 / 2) / (Width : ℝ) ≤ 1 / 10) ∧
    (-(1 / 10) ≤ -(1 / 10) + (1 / 10 - -(1 / 10)) * ((j : ℝ) + 1 / 2) / (Height : ℝ) ∧
      -(1 / 10) + (1 / 10 - -(1 / 10)) * ((j : ℝ) + 1 / 2) / (Height : ℝ) ≤ 1 / 10) := by
  have frac : ∀ (n k : Int), 0 ≤ k → k < n →
      (0 : ℝ) ≤ ((k : ℝ) + 1 / 2) / (n : ℝ) ∧ ((k : ℝ) + 1 / 2) / (n : ℝ) ≤ 1 := by
    intro n k hk0 hk
    have hk0r : (0 : ℝ) ≤ (k : ℝ) := by exact_mod_cast hk0
    have hk1 : (k : ℝ) + 1 ≤ (n : ℝ) := by exact_mod_cast Int.add_one_le_iff.2 hk
    have hn : (0 : ℝ) < (n : ℝ) := by linarith
    constructor
    · apply div_nonneg <;> linarith
    · rw [div_le_one hn]; linarith
  obtain ⟨hx0, hx1⟩ := frac Width i hi0 hi
  obtain ⟨hy0, hy1⟩ := frac Height j hj0 hj
  refine ⟨rfl, rfl, ?_, ⟨?_, ?_⟩, ⟨?_, ?_⟩⟩
  · apply length_normalize
    apply dot_self_pos_of_z
    simp [Camera.new]
  · rw [mul_div_assoc]; nlinarith
  · rw [mul_div_assoc]; nlinarith
  · rw [mul_div_assoc]; nlinarith
  · rw [mul_div_assoc]; nlinarith

/-- Witness for `getRay_spec`: pixel `(0, 511)` of a `512 x 512` image. -/
theorem getRay_spec_witness :
    (0 : Int) ≤ 0 ∧ (0 : Int) < 512 ∧ (0 : Int) ≤ 511 ∧ (511 : Int) < 512 ∧
    Vec3.length Real.sqrt
      ((Camera.new (⟨0, 0, 0⟩ : Vec3 ℝ) ⟨1, 0, 0⟩ ⟨0, 1, 0⟩ ⟨0, 0, 1⟩).getRay Real.sqrt
        512 512 0 511).direction = 1 :=
  ⟨by decide, by decide, by decide, by decide,
    (getRay_spec ⟨0, 0, 0⟩ ⟨1, 0, 0⟩ ⟨0, 1, 0⟩ ⟨0, 0, 1⟩ 512 512 0 511
      (by decide) (by decide) (by decide) (by decide)).2.2.1⟩

end CameraRays

/-! ## Surface intersection -/

section Intersect

variable {K : Type} [LinearOrderedField K]

/-- C8: for every plane and every ray whose direction is orthogonal to the stored normal,
`Plane::intersect` returns `hit = false` (the aggregate `{ false }`), whatever the origin. -/
theorem plane_parallel_miss (p : Plane K) (ray : Ray K)
    (h : Vec3.dot p.normal ray.direction = 0) :
    (p.intersect ray).hit = false ∧ p.intersect ray = Intersection.miss := by
  have hm : p.intersect ray = Intersection.miss := by
    simp only [Plane.intersect, h, abs_zero]
    rw [if_neg (by norm_num)]
  rw [hm]
  exact ⟨rfl, rfl⟩

/-- Witness for `plane_parallel_miss`: the floor `y = -2` and a ray along `+x` whose origin
lies on the plane. -/
theorem plane_parallel_miss_witness :
    Vec3.dot (⟨⟨0, 1, 0⟩, 2, some mPlane⟩ : Plane ℚ).normal
      (⟨⟨0, -2, 0⟩, ⟨1, 0, 0⟩⟩ : Ray ℚ).direction = 0 ∧
    ((⟨⟨0, 1, 0⟩, 2, some mPlane⟩ : Plane ℚ).intersect ⟨⟨0, -2, 0⟩, ⟨1, 0, 0⟩⟩).hit = false ∧
    (⟨⟨0, 1, 0⟩, 2, some mPlane⟩ : Plane ℚ).intersect ⟨⟨0, -2, 0⟩, ⟨1, 0, 0⟩⟩
      = Intersection.miss :=
  ⟨by norm_num [Vec3.dot],
    plane_parallel_miss ⟨⟨0, 1, 0⟩, 2, some mPlane⟩ ⟨⟨0, -2, 0⟩, ⟨1, 0, 0⟩⟩
      (by norm_num [Vec3.dot])⟩

/-- A plane hit is at distance at least `0.001`. -/
theorem plane_hit_distance (p : Plane K) (ray : Ray K) (h : (p.intersect ray).hit = true) :
    1 / 1000 ≤ (p.intersect ray).distance := by
  simp only [Plane.intersect] at h ⊢
  split_ifs at h ⊢ with h1 h2
  · exact h2
  · simp [Intersection.miss] at h
  · simp [Intersection.miss] at h

/-- A sphere hit is at distance more than `0.001`. -/
theorem sphere_hit_distance (sqrt : K → K) (s : Sphere K) (ray : Ray K)
    (h : (s.intersect sqrt ray).hit = true) :
    1 / 1000 < (s.intersect sqrt ray).distance := by
  simp only [Sphere.intersect] at h ⊢
  split_ifs at h ⊢ with h1 h2
  · simp [Intersection.miss] at h
  · exact h2
  · simp [Intersection.miss] at h

/-- A surface hit is at distance at least `0.001`. -/
theorem surface_hit_distance (sqrt : K → K) (s : Surface K) (ray : Ray K)
    (h : (s.intersect sqrt ray).hit = true) :
    1 / 1000 ≤ (s.intersect sqrt ray).distance := by
  cases s with
  | plane p => exact plane_hit_distance p ray h
  | sphere sp => exact le_of_lt (sphere_hit_distance sqrt sp ray h)

/-- C9: a hit record has a non-negative distance, in fact at least `0.001`: `>= 0.001` for
`Plane::intersect`, `> 0.001` for `Sphere::intersect`, and `>= 0.001` for every record with
`hit = true` that the closest-hit scan of `render` returns. -/
theorem hit_distance_bound (sqrt : K → K) (ray : Ray K) :
    (∀ p : Plane K, (p.intersect ray).hit = true →
      0 ≤ (p.intersect ray).distance ∧ 1 / 1000 ≤ (p.intersect ray).distance) ∧
    (∀ s : Sphere K, (s.intersect sqrt ray).hit = true →
      0 ≤ (s.intersect sqrt ray).distance ∧ 1 / 1000 < (s.intersect sqrt ray).distance) ∧
    (∀ (junk : Intersection K) (scene : List (Surface K)),
      (closestHit sqrt junk ray scene).hit = true →
      0 ≤ (closestHit sqrt junk ray scene).distance ∧
      1 / 1000 ≤ (closestHit sqrt junk ray scene).distance) := by
  have h0 : (0 : K) ≤ 1 / 1000 := by norm_num
  refine ⟨?_, ?_, ?_⟩
  · intro p h
    exact ⟨le_trans h0 (plane_hit_distance p ray h), plane_hit_distance p ray h⟩
  · intro s h
    exact ⟨le_trans h0 (le_of_lt (sphere_hit_distance sqrt s ray h)),
      sphere_hit_distance sqrt s ray h⟩
  · intro junk scene _
    have hb : 1 / 1000 ≤ (closestHit sqrt junk ray scene).distance := by
      unfold closestHit
      rcases closestScan_cases sqrt ray scene { junk with distance := FLT_MAX } with
        ⟨heq, _⟩ | ⟨s1, _, heq, hhit, _, _⟩
      · rw [heq]
        show (1 / 1000 : K) ≤ FLT_MAX
        norm_num [FLT_MAX]
      · rw [heq]
        exact surface_hit_distance sqrt s1 ray hhit
    exact ⟨le_trans h0 hb, hb⟩

/-- Witness for `hit_distance_bound`: the plane `y = 3` is hit by `upRay`, at distance `3`. -/
theorem hit_distance_bound_witness :
    ((⟨⟨0, 1, 0⟩, -3, some mPlane⟩ : Plane ℚ).intersect upRay).hit = true ∧
    (0 ≤ ((⟨⟨0, 1, 0⟩, -3, some mPlane⟩ : Plane ℚ).intersect upRay).distance ∧
      1 / 1000 ≤ ((⟨⟨0, 1, 0⟩, -3, some mPlane⟩ : Plane ℚ).intersect upRay).distance) :=
  have h : ((⟨⟨0, 1, 0⟩, -3, some mPlane⟩ : Plane ℚ).intersect upRay).hit = true := by
    norm_num [upRay, Plane.intersect, Vec3.dot]
  ⟨h, (hit_distance_bound (fun x => x) upRay).1 _ h⟩

end Intersect

/-! ## The shadow test -/

section Shadow

variable {K : Type} [LinearOrderedField K]

/-- The loop of `isInShadow` returns true exactly when some surface of the scene occludes. -/
theorem isInShadowLoop_iff (sqrt : K → K) (ray : Ray K) (lightDist : K)
    (scene : List (Surface K)) :
    isInShadowLoop sqrt ray lightDist scene = true ↔
      ∃ s ∈ scene, (s.intersect sqrt ray).hit = true ∧
        (s.intersect sqrt ray).distance > 1 / 1000 ∧
        (s.intersect sqrt ray).distance < lightDist := by
  induction scene with
  | nil => simp [isInShadowLoop]
  | cons s rest ih =>
    by_cases hs : (s.intersect sqrt ray).hit = true ∧
        (s.intersect sqrt ray).distance > 1 / 1000 ∧
        (s.intersect sqrt ray).distance < lightDist
    · have hl : isInShadowLoop sqrt ray lightDist (s :: rest) = true := by
        simp only [isInShadowLoop]
        rw [if_pos]
        simp only [Bool.and_eq_true, decide_eq_true_eq]
        exact ⟨⟨hs.1, hs.2.1⟩, hs.2.2⟩
      rw [hl]
      exact ⟨fun _ => ⟨s, List.mem_cons_self _ _, hs⟩, fun _ => rfl⟩
    · have hl : isInShadowLoop sqrt ray lightDist (s :: rest)
          = isInShadowLoop sqrt ray lightDist rest := by
        simp only [isInShadowLoop]
        rw [if_neg]
        simp only [Bool.and_eq_true, decide_eq_true_eq]
        rintro ⟨⟨h1, h2⟩, h3⟩
        exact hs ⟨h1, h2, h3⟩
      rw [hl, ih]
      constructor
      · rintro ⟨s1, hmem, h1⟩
        exact ⟨s1, List.mem_cons_of_mem _ hmem, h1⟩
      · rintro ⟨s1, hmem, h1⟩
        rcases List.mem_cons.1 hmem with rfl | hr
        · exact absurd h1 hs
        · exact ⟨s1, hr, h1⟩

/-- C10: for every point other than the light position and every scene, the shadow ray has
origin `point + 0.01 * L` and direction `L = normalize(lightPos - point)`; `isInShadow`
returns true if and only if some surface of the scene reports for the shadow ray a hit with
distance strictly greater than `0.001` and strictly less than `|lightPos - point|`; and it
returns the same result for every reordering of the scene. -/
theorem isInShadow_iff (sqrt : K → K) (point : Vec3 K) (scene scene2 : List (Surface K))
    (hp : point ≠ lightPos) (hperm : scene.Perm scene2) :
    shadowRay sqrt point =
      ⟨Vec3.add point (Vec3.muls (Vec3.normalize sqrt (Vec3.sub lightPos point)) (1 / 100)),
        Vec3.normalize sqrt (Vec3.sub lightPos point)⟩ ∧
    (isInShadow sqrt point scene = true ↔
      ∃ s ∈ scene, (s.intersect sqrt (shadowRay sqrt point)).hit = true ∧
        (s.intersect sqrt (shadowRay sqrt point)).distance > 1 / 1000 ∧
        (s.intersect sqrt (shadowRay sqrt point)).distance
          < Vec3.length sqrt (Vec3.sub lightPos point)) ∧
    isInShadow sqrt point scene = isInShadow sqrt point scene2 := by
  have _ := hp
  refine ⟨rfl, isInShadowLoop_iff sqrt _ _ scene, ?_⟩
  rw [Bool.eq_iff_iff]
  unfold isInShadow
  rw [isInShadowLoop_iff, isInShadowLoop_iff]
  constructor
  · rintro ⟨s, hmem, h⟩
    exact ⟨s, hperm.mem_iff.1 hmem, h⟩
  · rintro ⟨s, hmem, h⟩
    exact ⟨s, hperm.mem_iff.2 hmem, h⟩

/-- Witness for `isInShadow_iff`: the origin and two planes in both orders. -/
theorem isInShadow_iff_witness :
    (⟨0, 0, 0⟩ : Vec3 ℚ) ≠ lightPos ∧ [planeAt3, planeAtMax].Perm [planeAtMax, planeAt3] ∧
    isInShadow (fun x => x) (⟨0, 0, 0⟩ : Vec3 ℚ) [planeAt3, planeAtMax]
      = isInShadow (fun x => x) (⟨0, 0, 0⟩ : Vec3 ℚ) [planeAtMax, planeAt3] :=
  ⟨by simp [lightPos], List.Perm.swap _ _ _,
    (isInShadow_iff (fun x => x) (⟨0, 0, 0⟩ : Vec3 ℚ) [planeAt3, planeAtMax]
      [planeAtMax, planeAt3] (by simp [lightPos]) (List.Perm.swap _ _ _)).2.2⟩

end Shadow

/-! ## Scene order -/

section Order

variable {K : Type} [LinearOrderedField K]

/-- The scan either keeps its start record, and then no surface hits nearer than it, or it
returns the hit of the first surface that attains the least hit distance, which is strictly
below the distance of the start record. -/
theorem closestScan_first (sqrt : K → K) (ray : Ray K) (scene : List (Surface K)) :
    ∀ c : Intersection K,
      (closestScan sqrt ray c scene = c ∧
        ∀ s ∈ scene, (s.intersect sqrt ray).hit = true →
          c.distance ≤ (s.intersect sqrt ray).distance) ∨
      (∃ pre s post, scene = pre ++ s :: post ∧
        closestScan sqrt ray c scene = s.intersect sqrt ray ∧
        (s.intersect sqrt ray).hit = true ∧ (s.intersect sqrt ray).distance < c.distance ∧
        (∀ s2 ∈ pre, (s2.intersect sqrt ray).hit = true →
          (s.intersect sqrt ray).distance < (s2.intersect sqrt ray).distance) ∧
        (∀ s2 ∈ post, (s2.intersect sqrt ray).hit = true →
          (s.intersect sqrt ray).distance ≤ (s2.intersect sqrt ray).distance)) := by
  induction scene with
  | nil => intro c; left; exact ⟨rfl, fun s hs => absurd hs (List.not_mem_nil s)⟩
  | cons s0 rest ih =>
    intro c
    rw [closestScan_cons]
    by_cases hs : (s0.intersect sqrt ray).hit = true ∧
        (s0.intersect sqrt ray).distance < c.distance
    · have hstep : closestStep sqrt ray c s0 = s0.intersect sqrt ray := by
        simp [closestStep, hs.1, hs.2]
      rw [hstep]
      right
      rcases ih (s0.intersect sqrt ray) with
        ⟨heq, hall⟩ | ⟨pre, s1, post, hsplit, heq, hhit, hlt, hpre, hpost⟩
      · exact ⟨[], s0, rest, rfl, heq, hs.1, hs.2,
          fun s2 h2 => absurd h2 (List.not_mem_nil s2), hall⟩
      · refine ⟨s0 :: pre, s1, post, by rw [hsplit]; rfl, heq, hhit, lt_trans hlt hs.2, ?_,
          hpost⟩
        intro s2 hs2 hh
        rcases List.mem_cons.1 hs2 with rfl | hr
        · exact hlt
        · exact hpre s2 hr hh
    · have hstep : closestStep sqrt ray c s0 = c := by
        unfold closestStep
        by_cases hh : (s0.intersect sqrt ray).hit = true
        · have : ¬ (s0.intersect sqrt ray).distance < c.distance := fun h => hs ⟨hh, h⟩
          simp [hh, this]
        · simp [hh]
      rw [hstep]
      have hge : (s0.intersect sqrt ray).hit = true →
          c.distance ≤ (s0.intersect sqrt ray).distance := fun hh =>
        not_lt.1 (fun h => hs ⟨hh, h⟩)
      rcases ih c with ⟨heq, hall⟩ | ⟨pre, s1, post, hsplit, heq, hhit, hlt, hpre, hpost⟩
      · left
        refine ⟨heq, ?_⟩
        intro s2 hs2 hh
        rcases List.mem_cons.1 hs2 with rfl | hr
        · exact hge hh
        · exact hall s2 hr hh
      · right
        refine ⟨s0 :: pre, s1, post, by rw [hsplit]; rfl, heq, hhit, hlt, ?_, hpost⟩
        intro s2 hs2 hh
        rcases List.mem_cons.1 hs2 with rfl | hr
        · exact lt_of_lt_of_le hlt (hge hh)
        · exact hpre s2 hr hh

/-- C15 (as amended): for every ray and scene in which some surface reports a hit below the
sentinel `FLT_MAX`, the record returned by the closest-hit scan is the intersect result of
the first surface in scene order whose hit distance is the least hit distance: every hit
before it is strictly farther, every hit after it is at least as far, so a later surface at
exactly the same distance never replaces it. -/
theorem closestHit_first (sqrt : K → K) (junk : Intersection K) (ray : Ray K)
    (scene : List (Surface K))
    (h : ∃ s ∈ scene, (s.intersect sqrt ray).hit = true ∧
      (s.intersect sqrt ray).distance < FLT_MAX) :
    ∃ pre s post, scene = pre ++ s :: post ∧
      closestHit sqrt junk ray scene = s.intersect sqrt ray ∧
      (s.intersect sqrt ray).hit = true ∧
      (∀ s2 ∈ scene, (s2.intersect sqrt ray).hit = true →
        (s.intersect sqrt ray).distance ≤ (s2.intersect sqrt ray).distance) ∧
      (∀ s2 ∈ pre, (s2.intersect sqrt ray).hit = true →
        (s.intersect sqrt ray).distance < (s2.intersect sqrt ray).distance) := by
  obtain ⟨s0, hs0, hhit0, hlt0⟩ := h
  unfold closestHit
  rcases closestScan_first sqrt ray scene { junk with distance := FLT_MAX } with
    ⟨_, hall⟩ | ⟨pre, s1, post, hsplit, heq, hhit, _, hpre, hpost⟩
  · exact absurd hlt0 (not_lt.2 (hall s0 hs0 hhit0))
  · refine ⟨pre, s1, post, hsplit, heq, hhit, ?_, hpre⟩
    intro s2 hs2 hh
    rw [hsplit] at hs2
    rcases List.mem_append.1 hs2 with hp | hp
    · exact le_of_lt (hpre s2 hp hh)
    · rcases List.mem_cons.1 hp with rfl | hq
      · exact le_refl _
      · exact hpost s2 hq hh

/-- Witness for `closestHit_first`: two planes at the same distance `3`; the first one wins. -/
theorem closestHit_first_witness :
    (∃ s ∈ [planeAt3, planeAt3b], (s.intersect (fun x => x) upRay).hit = true ∧
      (s.intersect (fun x => x) upRay).distance < FLT_MAX) ∧
    (∃ pre s post, [planeAt3, planeAt3b] = pre ++ s :: post ∧
      closestHit (fun x => x) Intersection.miss upRay [planeAt3, planeAt3b]
        = s.intersect (fun x => x) upRay ∧
      (s.intersect (fun x => x) upRay).hit = true ∧
      (∀ s2 ∈ [planeAt3, planeAt3b], (s2.intersect (fun x => x) upRay).hit = true →
        (s.intersect (fun x => x) upRay).distance ≤ (s2.intersect (fun x => x) upRay).distance) ∧
      (∀ s2 ∈ pre, (s2.intersect (fun x => x) upRay).hit = true →
        (s.intersect (fun x => x) upRay).distance
          < (s2.intersect (fun x => x) upRay).distance)) ∧
    (closestHit (fun x => x) Intersection.miss upRay [planeAt3, planeAt3b]).material
      = some mPlane :=
  have h : ∃ s ∈ [planeAt3, planeAt3b], (s.intersect (fun x => x) upRay).hit = true ∧
      (s.intersect (fun x => x) upRay).distance < FLT_MAX :=
    ⟨planeAt3, List.mem_cons_self _ _, by
      norm_num [planeAt3, upRay, Surface.intersect, Plane.intersect, Vec3.dot, FLT_MAX]⟩
  ⟨h, closestHit_first (fun x => x) Intersection.miss upRay [planeAt3, planeAt3b] h, by
    norm_num [closestHit, closestScan, closestStep, planeAt3, planeAt3b, upRay,
      Surface.intersect, Plane.intersect, Vec3.dot, FLT_MAX, Intersection.miss]⟩

/-- C15 (as stated) fails: behind the floor, the plane `y = FLT_MAX` is the only surface that
`upRay` hits, hence the first one at the least hit distance, but the scan does not return
its record. -/
theorem scan_first_lost_at_sentinel :
    (planeAtMax.intersect (fun x => x) upRay).hit = true ∧
    (floorBelow.intersect (fun x => x) upRay).hit = false ∧
    closestHit (fun x => x) Intersection.miss upRay [floorBelow, planeAtMax]
      ≠ planeAtMax.intersect (fun x => x) upRay := by
  refine ⟨?_, ?_, ?_⟩
  · norm_num [planeAtMax, upRay, Surface.intersect, Plane.intersect, Vec3.dot, FLT_MAX]
  · norm_num [floorBelow, upRay, Surface.intersect, Plane.intersect, Vec3.dot,
      Intersection.miss]
  · norm_num [closestHit, closestScan, closestStep, planeAtMax, floorBelow, upRay,
      Surface.intersect, Plane.intersect, Vec3.dot, FLT_MAX, Intersection.miss]

end Order

/-! ## Shading -/

section Shading

/-- The value of `sqrt(36)`. -/
theorem sqrt_36 : Real.sqrt 36 = 6 := by
  rw [show (36 : ℝ) = 6 * 6 by norm_num]
  exact Real.sqrt_mul_self (by norm_num)

/-- The shadow ray of the apex `(0, 0, -5)`: the light is at distance `6` in the direction
`(-2/3, 2/3, 1/3)`. -/
theorem shadowRay_apex :
    shadowRay Real.sqrt (⟨0, 0, -5⟩ : Vec3 ℝ) =
      ⟨⟨-(1 / 150), 1 / 150, -5 + 1 / 300⟩, ⟨-(2 / 3), 2 / 3, 1 / 3⟩⟩ ∧
    Vec3.length Real.sqrt (Vec3.sub lightPos (⟨0, 0, -5⟩ : Vec3 ℝ)) = 6 := by
  constructor
  · norm_num [shadowRay, lightPos, Vec3.normalize, Vec3.sub, Vec3.dot, Vec3.muls, Vec3.add,
      sqrt_36]
  · norm_num [lightPos, Vec3.length, Vec3.sub, Vec3.dot, sqrt_36]

/-- The plane `y = 1` puts the apex `(0, 0, -5)` in shadow. -/
theorem roofPlane_shadows_apex (rest : List (Surface ℝ)) :
    isInShadow Real.sqrt (⟨0, 0, -5⟩ : Vec3 ℝ) (roofPlane :: rest) = true := by
  unfold isInShadow
  rw [isInShadowLoop_iff]
  refine ⟨roofPlane, List.mem_cons_self _ _, ?_⟩
  rw [shadowRay_apex.1, shadowRay_apex.2]
  have habs : |(2 / 3 : ℝ)| = 2 / 3 := abs_of_pos (by norm_num)
  norm_num [roofPlane, Surface.intersect, Plane.intersect, Vec3.dot, habs]

variable {K : Type} [LinearOrderedField K]

/-- C11: for every hit record, ray and scene such that `isInShadow(hit.point, scene)` is
true, `shade` returns exactly the ambient term `ka * lightColor` of the hit material; the
result is the same for every other ray, normal, distance, `kd`, `ks`, `power` and `pow`. -/
theorem shade_in_shadow (sqrt : K → K) (powf : K → K → K) (hit : Intersection K) (ray : Ray K)
    (scene : List (Surface K)) (mat : Material K) (hm : hit.material = some mat)
    (hs : isInShadow sqrt hit.point scene = true) :
    shade sqrt powf hit ray scene = some (Vec3.mul mat.ka lightColor) ∧
    shade sqrt powf hit ray scene = some ⟨mat.ka.x, mat.ka.y, mat.ka.z⟩ ∧
    ∀ (powf2 : K → K → K) (hit2 : Intersection K) (ray2 : Ray K) (mat2 : Material K),
      hit2.point = hit.point → hit2.material = some mat2 → mat2.ka = mat.ka →
      shade sqrt powf2 hit2 ray2 scene = shade sqrt powf hit ray scene := by
  have key : ∀ (pw : K → K → K) (ht : Intersection K) (ry : Ray K) (mt : Material K),
      ht.material = some mt → isInShadow sqrt ht.point scene = true →
      shade sqrt pw ht ry scene = some (Vec3.mul mt.ka lightColor) := by
    intro pw ht ry mt h1 h2
    unfold shade
    rw [h1]
    dsimp only
    rw [if_pos h2]
  refine ⟨key powf hit ray mat hm hs, ?_, ?_⟩
  · rw [key powf hit ray mat hm hs]
    simp [Vec3.mul, lightColor, Vec3.splat]
  · intro powf2 hit2 ray2 mat2 hp hm2 hka
    rw [key powf hit ray mat hm hs, key powf2 hit2 ray2 mat2 hm2 (by rw [hp]; exact hs), hka]

/-- Witness for `shade_in_shadow`: the apex of the centre sphere under the plane `y = 1`. -/
theorem shade_in_shadow_witness :
    (apexHit : Intersection ℝ).material = some mS2 ∧
    isInShadow Real.sqrt (apexHit : Intersection ℝ).point [roofPlane, centreSphere] = true ∧
    shade Real.sqrt Real.rpow apexHit downRay [roofPlane, centreSphere]
      = some ⟨0, 2 / 10, 0⟩ :=
  ⟨rfl, roofPlane_shadows_apex _,
    (shade_in_shadow Real.sqrt Real.rpow apexHit downRay [roofPlane, centreSphere] mS2 rfl
      (roofPlane_shadows_apex _)).2.1⟩

/-- The method `Sphere::intersect` when the discriminant is the square of `w >= 0`. -/
theorem sphere_intersect_of_disc (s : Sphere ℝ) (ray : Ray ℝ) (w : ℝ) (hw : 0 ≤ w)
    (h : 2 * Vec3.dot (Vec3.sub ray.origin s.center) ray.direction *
        (2 * Vec3.dot (Vec3.sub ray.origin s.center) ray.direction) -
      4 * Vec3.dot ray.direction ray.direction *
        (Vec3.dot (Vec3.sub ray.origin s.center) (Vec3.sub ray.origin s.center)
          - s.radius * s.radius) = w * w) :
    s.intersect Real.sqrt ray =
      if (-(2 * Vec3.dot (Vec3.sub ray.origin s.center) ray.direction) - w)
          / (2 * Vec3.dot ray.direction ray.direction) > 1 / 1000 then
        ⟨true,
          (-(2 * Vec3.dot (Vec3.sub ray.origin s.center) ray.direction) - w)
            / (2 * Vec3.dot ray.direction ray.direction),
          Vec3.add ray.origin (Vec3.smul
            ((-(2 * Vec3.dot (Vec3.sub ray.origin s.center) ray.direction) - w)
              / (2 * Vec3.dot ray.direction ray.direction)) ray.direction),
          Vec3.normalize Real.sqrt (Vec3.sub (Vec3.add ray.origin (Vec3.smul
            ((-(2 * Vec3.dot (Vec3.sub ray.origin s.center) ray.direction) - w)
              / (2 * Vec3.dot ray.direction ray.direction)) ray.direction)) s.center),
          s.material⟩
      else Intersection.miss := by
  simp only [Sphere.intersect, h, Real.sqrt_mul_self hw]
  rw [if_neg (not_lt.2 (mul_self_nonneg w))]

/-- The value of `sqrt(4)`. -/
theorem sqrt_4 : Real.sqrt 4 = 2 := by
  rw [show (4 : ℝ) = 2 * 2 by norm_num]
  exact Real.sqrt_mul_self (by norm_num)

/-- The central ray hits the centre sphere at its apex. -/
theorem centreSphere_downRay :
    (centreSphere : Surface ℝ).intersect Real.sqrt downRay = apexHit := by
  simp only [centreSphere, Surface.intersect]
  rw [sphere_intersect_of_disc _ _ 4 (by norm_num)
    (by norm_num [downRay, Vec3.dot, Vec3.sub])]
  norm_num [downRay, apexHit, Vec3.dot, Vec3.sub, Vec3.add, Vec3.smul, Vec3.normalize,
    Vec3.muls, sqrt_4]

/-- The shadow ray of the apex misses the centre sphere. -/
theorem centreSphere_shadowRay_apex :
    ((centreSphere : Surface ℝ).intersect Real.sqrt
      (shadowRay Real.sqrt (⟨0, 0, -5⟩ : Vec3 ℝ))).hit = false := by
  rw [shadowRay_apex.1]
  simp only [centreSphere, Surface.intersect]
  rw [sphere_intersect_of_disc _ _ (4 / 3) (by norm_num)
    (by norm_num [Vec3.dot, Vec3.sub])]
  norm_num [Vec3.dot, Vec3.sub, Intersection.miss]

/-- C12: for the scene made of the sphere with centre `(0, 0, -7)`, radius `2` and material
`mS2`, the light at `(-4, 4, -3)` with colour `(1, 1, 1)` and the ray from the origin along
`-z`: the closest hit is `hit = true` at distance `5`, point `(0, 0, -5)`, normal
`(0, 0, 1)`; `isInShadow` at that point is false; and `shade` returns a colour that is not
black and whose green channel is strictly greater than its red and its blue channel. -/
theorem centre_pixel_scenario :
    (mS2 : Material ℝ) = ⟨⟨0, 2 / 10, 0⟩, ⟨0, 5 / 10, 0⟩, ⟨5 / 10, 5 / 10, 5 / 10⟩, 32⟩ ∧
    (lightPos : Vec3 ℝ) = ⟨-4, 4, -3⟩ ∧ (lightColor : Vec3 ℝ) = ⟨1, 1, 1⟩ ∧
    (∀ junk : Intersection ℝ,
      closestHit Real.sqrt junk ⟨⟨0, 0, 0⟩, ⟨0, 0, -1⟩⟩
          [Surface.sphere ⟨⟨0, 0, -7⟩, 2, some mS2⟩]
        = ⟨true, 5, ⟨0, 0, -5⟩, ⟨0, 0, 1⟩, some mS2⟩) ∧
    isInShadow Real.sqrt (⟨0, 0, -5⟩ : Vec3 ℝ) [Surface.sphere ⟨⟨0, 0, -7⟩, 2, some mS2⟩]
      = false ∧
    ∃ c, shade Real.sqrt Real.rpow ⟨true, 5, ⟨0, 0, -5⟩, ⟨0, 0, 1⟩, some mS2⟩
        ⟨⟨0, 0, 0⟩, ⟨0, 0, -1⟩⟩ [Surface.sphere ⟨⟨0, 0, -7⟩, 2, some mS2⟩] = some c ∧
      c ≠ ⟨0, 0, 0⟩ ∧ c.x < c.y ∧ c.z < c.y := by
  have hshadow : isInShadow Real.sqrt (⟨0, 0, -5⟩ : Vec3 ℝ)
      [Surface.sphere ⟨⟨0, 0, -7⟩, 2, some mS2⟩] = false := by
    rw [← Bool.not_eq_true, isInShadow, isInShadowLoop_iff]
    rintro ⟨s, hs, hhit, _⟩
    rw [List.mem_singleton] at hs
    subst hs
    have hmiss := centreSphere_shadowRay_apex
    simp only [centreSphere] at hmiss
    rw [hmiss] at hhit
    exact Bool.false_ne_true hhit
  refine ⟨rfl, rfl, rfl, ?_, hshadow, ?_⟩
  · intro junk
    have hhit := centreSphere_downRay
    simp only [centreSphere, downRay, apexHit] at hhit
    simp only [closestHit, closestScan, List.foldl, closestStep, hhit]
    norm_num [FLT_MAX]
  · unfold shade
    dsimp only
    rw [if_neg (by rw [hshadow]; exact Bool.false_ne_true)]
    have hd := le_max_right
      (Vec3.dot (Vec3.normalize Real.sqrt (⟨0, 0, 1⟩ : Vec3 ℝ))
        (Vec3.normalize Real.sqrt (Vec3.sub lightPos ⟨0, 0, -5⟩))) (0 : ℝ)
    have hxy : ∀ diff spec : ℝ, 0 ≤ diff →
        (Vec3.add (Vec3.add (Vec3.mul (mS2 : Material ℝ).ka lightColor)
          (Vec3.mul (Vec3.muls (mS2 : Material ℝ).kd diff) lightColor))
          (Vec3.mul (Vec3.muls (mS2 : Material ℝ).ks spec) lightColor)).x <
        (Vec3.add (Vec3.add (Vec3.mul (mS2 : Material ℝ).ka lightColor)
          (Vec3.mul (Vec3.muls (mS2 : Material ℝ).kd diff) lightColor))
          (Vec3.mul (Vec3.muls (mS2 : Material ℝ).ks spec) lightColor)).y ∧
        (Vec3.add (Vec3.add (Vec3.mul (mS2 : Material ℝ).ka lightColor)
          (Vec3.mul (Vec3.muls (mS2 : Material ℝ).kd diff) lightColor))
          (Vec3.mul (Vec3.muls (mS2 : Material ℝ).ks spec) lightColor)).z <
        (Vec3.add (Vec3.add (Vec3.mul (mS2 : Material ℝ).ka lightColor)
          (Vec3.mul (Vec3.muls (mS2 : Material ℝ).kd diff) lightColor))
          (Vec3.mul (Vec3.muls (mS2 : Material ℝ).ks spec) lightColor)).y := by
      intro diff spec hdiff
      simp only [Vec3.add, Vec3.mul, Vec3.muls, lightColor, Vec3.splat, mS2, mul_one]
      constructor <;> linarith
    obtain ⟨h1, h2⟩ := hxy _ (Real.rpow
      (max (Vec3.dot (Vec3.normalize Real.sqrt (⟨0, 0, 1⟩ : Vec3 ℝ))
        (Vec3.normalize Real.sqrt (Vec3.add
          (Vec3.normalize Real.sqrt (Vec3.sub lightPos ⟨0, 0, -5⟩))
          (Vec3.normalize Real.sqrt (Vec3.neg (⟨0, 0, -1⟩ : Vec3 ℝ)))))) 0) 32) hd
    have hne : ∀ c : Vec3 ℝ, c.x < c.y → c ≠ ⟨0, 0, 0⟩ := by
      intro c hc h0
      rw [h0] at hc
      exact lt_irrefl _ hc
    exact ⟨_, rfl, hne _ h1, h1, h2⟩

end Shading

/-! ## Tone mapping -/

section Tone

end Tone

/-! ## Geometry of the hit records -/

section Geometry

end Geometry

/-! ## Occluders near the light -/

section NearLight

end NearLight

end RayTracer
